import Mathlib

/-!
Shallow embedding of the incremental transcript aggregation engine of
`src/components/TranscriptManager.jsx`: the event-processing effect that
turns the most recent raw realtime event into an update of the transcript
list and of the `processedEventIds` dedup ledger.

Conventions of the embedding:
* absent JS object fields are `none`;
* JS truthiness of a string field (absent and `""` are falsy) is `truthyStr`;
* the JS `Set` `processedEventIds`, which may contain `undefined`, is a list
  of `Option String` with `none` standing for `undefined`;
* `Date.now()` / `new Date()` are modelled by a `clock` counter in the state
  that advances once per processed event; fresh fallback ids are derived
  from it deterministically.
-/

namespace TM

/-- One element of the `item.content` array of a `conversation.item.*` event. -/
structure ContentPart where
  type : Option String := none
  text : Option String := none
  transcript : Option String := none
  deriving Repr, DecidableEq

/-- The nested `item` object of a `conversation.item.*` event. -/
structure Item where
  type : Option String := none
  role : Option String := none
  content : List ContentPart := []
  deriving Repr, DecidableEq

/-- A raw realtime event, restricted to the fields the aggregator reads. -/
structure RawEvent where
  event_id : Option String := none
  type : String
  delta : Option String := none
  text : Option String := none
  transcript : Option String := none
  output_text : Option String := none
  item : Option Item := none
  deriving Repr, DecidableEq

/-- JS truthiness of an optional string field: absent and `""` are both falsy. -/
def truthyStr : Option String → Option String
  | some s => if s = "" then none else some s
  | none => none

/-- JS `a || b` on string fields: the first truthy operand, if any. -/
def jsOr (a b : Option String) : Option String :=
  match truthyStr a with
  | some s => some s
  | none => truthyStr b

/-- A transcript entry. The source stores both a `speaker` and a `type` field,
always set to the same value at creation; the merge guards test `type`, the
render label tests `speaker`. An appended finalized entry leaves the JS
`isPartial` field absent, embedded here as `false`. -/
structure TranscriptEntry where
  id : String
  speaker : String
  message : String
  timestamp : Nat
  type : String
  isPartial : Bool
  deriving Repr, DecidableEq

/-- Aggregator state: the `transcript` list, the `processedEventIds` ledger and
the clock counter standing in for wall-clock time. -/
structure AggState where
  transcript : List TranscriptEntry
  seenIds : List (Option String)
  clock : Nat
  deriving Repr, DecidableEq

/-- The fresh state at session start (empty transcript, empty ledger). -/
def AggState.start : AggState := { transcript := [], seenIds := [], clock := 0 }

/-- `event.event_id || Date.now() + Math.random()`: the event id when truthy,
otherwise a generated fallback id (derived from the clock). -/
def freshId (e : RawEvent) (clock : Nat) : String :=
  match truthyStr e.event_id with
  | some s => s
  | none => "generated-" ++ toString clock

/-- Build a new transcript entry the way the source object literals do:
`speaker` and `type` coincide, `id` and `timestamp` come from the event and
the clock. -/
def mkEntry (e : RawEvent) (clock : Nat) (speaker : String) (msg : String)
    (p : Bool) : TranscriptEntry :=
  { id := freshId e clock, speaker := speaker, message := msg,
    timestamp := clock, type := speaker, isPartial := p }

/-- The guard `lastEntry && lastEntry.type === ty && lastEntry.isPartial`
evaluated on the previous transcript. -/
def lastIsPartialOf (t : List TranscriptEntry) (ty : String) : Bool :=
  match t.getLast? with
  | some l => l.type == ty && TranscriptEntry.isPartial l
  | none => false

/-- The speaker-agnostic guard `lastEntry && lastEntry.isPartial` of the
assistant "done" cases. -/
def lastIsPartialAny (t : List TranscriptEntry) : Bool :=
  match t.getLast? with
  | some l => TranscriptEntry.isPartial l
  | none => false

/-- `[...prev.slice(0, -1), f(lastEntry)]`; the identity on the empty list
(the source only builds this under a guard implying a last entry exists). -/
def mergeLast (t : List TranscriptEntry)
    (f : TranscriptEntry → TranscriptEntry) : List TranscriptEntry :=
  match t.getLast? with
  | some l => t.dropLast ++ [f l]
  | none => t

/-- The `conversation.item.create` guard chain:
`event.item?.type === 'message' && event.item?.role === 'user'`, then
`content?.type === 'input_text' && content?.text` on `item.content?.[0]`.
Returns the text to append when every guard passes. -/
def userCreateText (e : RawEvent) : Option String :=
  match e.item with
  | some it =>
    if it.type == some "message" && it.role == some "user" then
      match it.content.head? with
      | some c => if c.type == some "input_text" then truthyStr c.text else none
      | none => none
    else none
  | none => none

/-- The `conversation.item.added` guard chain: same `message`/`user` checks,
then `content?.type === 'input_audio' && content?.transcript`. -/
def userAddedTranscript (e : RawEvent) : Option String :=
  match e.item with
  | some it =>
    if it.type == some "message" && it.role == some "user" then
      match it.content.head? with
      | some c =>
        if c.type == some "input_audio" then truthyStr c.transcript else none
      | none => none
    else none
  | none => none

/-- The distinct transcript updates the `switch` can trigger, with the
extracted payload text. `skip` collects every path that performs no
`setTranscript` and no ledger recording: ignored types, unrecognized types,
failed guard conditions and empty payloads. -/
inductive Action where
  | skip
  | appendUserFinal (txt : String)
  | userDelta (txt : String)
  | userBufferComplete (txt : String)
  | assistantDelta (txt : String)
  | assistantDone (txt : String)
  deriving Repr, DecidableEq

/-- The `switch (event.type)` dispatch: which action the event triggers.
Case order and payload extraction follow the source: the
`response.audio_transcript.delta`, `response.text.delta` and
`response.text.done` cases read a single field, the `output_` alias cases
read a `||` chain, `response.output_text.done` reads
`event.text || event.output_text || event.transcript`. -/
def classify (e : RawEvent) : Action :=
  if e.type = "conversation.item.create" then
    match userCreateText e with
    | some t => .appendUserFinal t
    | none => .skip
  else if e.type = "conversation.item.input_audio_transcription.delta" then
    match jsOr e.delta e.text with
    | some t => .userDelta t
    | none => .skip
  else if e.type = "input_audio_buffer.speech_started" then .skip
  else if e.type = "input_audio_buffer.speech_stopped" then .skip
  else if e.type = "input_audio_buffer.committed" then .skip
  else if e.type = "input_audio_buffer.transcription.delta" then
    match jsOr e.delta e.text with
    | some t => .userDelta t
    | none => .skip
  else if e.type = "conversation.item.input_audio_transcription.completed" then
    match truthyStr e.transcript with
    | some t => .appendUserFinal t
    | none => .skip
  else if e.type = "conversation.item.added" then
    match userAddedTranscript e with
    | some t => .appendUserFinal t
    | none => .skip
  else if e.type = "input_audio_buffer.transcription.completed" then
    match truthyStr e.transcript with
    | some t => .userBufferComplete t
    | none => .skip
  else if e.type = "response.audio_transcript.delta" then
    match truthyStr e.delta with
    | some t => .assistantDelta t
    | none => .skip
  else if e.type = "response.output_audio_transcript.delta" then
    match jsOr e.delta e.text with
    | some t => .assistantDelta t
    | none => .skip
  else if e.type = "response.audio_transcript.done" then
    match truthyStr e.transcript with
    | some t => .assistantDone t
    | none => .skip
  else if e.type = "response.output_audio_transcript.done" then
    match jsOr e.transcript e.text with
    | some t => .assistantDone t
    | none => .skip
  else if e.type = "response.text.delta" then
    match truthyStr e.delta with
    | some t => .assistantDelta t
    | none => .skip
  else if e.type = "response.output_text.delta" then
    match jsOr e.delta e.text with
    | some t => .assistantDelta t
    | none => .skip
  else if e.type = "response.text.done" then
    match truthyStr e.text with
    | some t => .assistantDone t
    | none => .skip
  else if e.type = "response.output_text.done" then
    match jsOr (jsOr e.text e.output_text) e.transcript with
    | some t => .assistantDone t
    | none => .skip
  else .skip

/-- Apply the chosen action. Each branch mirrors the corresponding
`setTranscript` update of the source and records the raw (possibly absent)
`event.event_id` in the ledger exactly when the source calls
`processedEventIds.current.add(event.event_id)` — on every non-skip action. -/
def applyAction (st : AggState) (e : RawEvent) : Action → AggState
  | .skip => st
  | .appendUserFinal txt =>
    { st with
      transcript := st.transcript ++ [mkEntry e st.clock "user" txt false],
      seenIds := e.event_id :: st.seenIds }
  | .userDelta txt =>
    if lastIsPartialOf st.transcript "user" then
      { st with
        transcript :=
          mergeLast st.transcript (fun l => { l with message := l.message ++ txt }),
        seenIds := e.event_id :: st.seenIds }
    else
      { st with
        transcript := st.transcript ++ [mkEntry e st.clock "user" txt true],
        seenIds := e.event_id :: st.seenIds }
  | .userBufferComplete txt =>
    if lastIsPartialOf st.transcript "user" then
      { st with
        transcript :=
          mergeLast st.transcript
            (fun l => { l with message := txt, isPartial := false }),
        seenIds := e.event_id :: st.seenIds }
    else
      { st with
        transcript := st.transcript ++ [mkEntry e st.clock "user" txt false],
        seenIds := e.event_id :: st.seenIds }
  | .assistantDelta txt =>
    if lastIsPartialOf st.transcript "assistant" then
      { st with
        transcript :=
          mergeLast st.transcript (fun l => { l with message := l.message ++ txt }),
        seenIds := e.event_id :: st.seenIds }
    else
      { st with
        transcript := st.transcript ++ [mkEntry e st.clock "assistant" txt true],
        seenIds := e.event_id :: st.seenIds }
  | .assistantDone txt =>
    if lastIsPartialAny st.transcript then
      { st with
        transcript :=
          mergeLast st.transcript
            (fun l => { l with message := txt, isPartial := false }),
        seenIds := e.event_id :: st.seenIds }
    else
      { st with
        transcript := st.transcript ++ [mkEntry e st.clock "assistant" txt false],
        seenIds := e.event_id :: st.seenIds }

/-- One run of the event-processing effect on the most recent event: return
unchanged when the raw `event_id` is already in the ledger (this is the
`processedEventIds.current.has(event.event_id)` check, which also matches an
absent id against a recorded `undefined`), otherwise dispatch and apply.
The clock advances once per processed call. -/
def ingest (st : AggState) (e : RawEvent) : AggState :=
  if st.seenIds.contains e.event_id then st
  else { applyAction st e (classify e) with clock := st.clock + 1 }

/-- Ingest a whole arrival-ordered event sequence from the fresh state. -/
def ingestAll (es : List RawEvent) : AggState :=
  es.foldl ingest AggState.start

/-- The observable part of an entry that the behavioural properties talk
about: speaker, message, and whether the entry is still partial. -/
def view (x : TranscriptEntry) : String × String × Bool :=
  (x.speaker, x.message, TranscriptEntry.isPartial x)

theorem ingest_of_contains {st : AggState} {e : RawEvent}
    (h : st.seenIds.contains e.event_id = true) : ingest st e = st := by
  unfold ingest; rw [if_pos h]

theorem ingest_of_not_contains {st : AggState} {e : RawEvent}
    (h : st.seenIds.contains e.event_id = false) :
    ingest st e = { applyAction st e (classify e) with clock := st.clock + 1 } := by
  unfold ingest; rw [h]; rfl

theorem applyAction_seenIds (st : AggState) (e : RawEvent) (a : Action)
    (h : a ≠ Action.skip) :
    (applyAction st e a).seenIds = e.event_id :: st.seenIds := by
  cases a with
  | skip => exact absurd rfl h
  | appendUserFinal txt => rfl
  | userDelta txt => simp only [applyAction]; split <;> rfl
  | userBufferComplete txt => simp only [applyAction]; split <;> rfl
  | assistantDelta txt => simp only [applyAction]; split <;> rfl
  | assistantDone txt => simp only [applyAction]; split <;> rfl

theorem lastIsPartialOf_iff {t : List TranscriptEntry} {ty : String} :
    lastIsPartialOf t ty = true ↔
      ∃ l, t.getLast? = some l ∧ l.type = ty ∧ TranscriptEntry.isPartial l = true := by
  unfold lastIsPartialOf
  cases h : t.getLast? with
  | none => simp
  | some l => simp [Bool.and_eq_true, beq_iff_eq]

theorem lastIsPartialAny_iff {t : List TranscriptEntry} :
    lastIsPartialAny t = true ↔
      ∃ l, t.getLast? = some l ∧ TranscriptEntry.isPartial l = true := by
  unfold lastIsPartialAny
  cases h : t.getLast? with
  | none => simp
  | some l => simp

theorem mergeLast_of_getLast? {t : List TranscriptEntry} {l : TranscriptEntry}
    (f : TranscriptEntry → TranscriptEntry) (h : t.getLast? = some l) :
    mergeLast t f = t.dropLast ++ [f l] := by
  unfold mergeLast; rw [h]

theorem getLast?_ne_nil {t : List TranscriptEntry} {l : TranscriptEntry}
    (h : t.getLast? = some l) : t ≠ [] := by
  intro hnil; rw [hnil] at h; exact Option.noConfusion h

/-- Claim C1: ingesting an event that carries an `event_id` twice in a row
leaves both the transcript and the dedup ledger exactly as after the first
ingest: the second call is a no-op on both. -/
theorem ingest_idempotent (st : AggState) (e : RawEvent) (i : String)
    (hid : e.event_id = some i) :
    (ingest (ingest st e) e).transcript = (ingest st e).transcript ∧
    (ingest (ingest st e) e).seenIds = (ingest st e).seenIds := by
  by_cases hc : st.seenIds.contains e.event_id = true
  · rw [ingest_of_contains hc, ingest_of_contains hc]
    exact ⟨rfl, rfl⟩
  · have hc' : st.seenIds.contains e.event_id = false := by
      exact Bool.not_eq_true _ ▸ Bool.of_not_eq_true hc
    have h1 := ingest_of_not_contains hc'
    by_cases ha : classify e = Action.skip
    · have hsn : (ingest st e).seenIds = st.seenIds := by rw [h1, ha]; rfl
      have h2 : ingest (ingest st e) e =
          { applyAction (ingest st e) e (classify e)
            with clock := (ingest st e).clock + 1 } := by
        apply ingest_of_not_contains
        rw [hsn]; exact hc'
      rw [h2, ha]
      exact ⟨rfl, rfl⟩
    · have hsn : (ingest st e).seenIds = e.event_id :: st.seenIds := by
        rw [h1]; exact applyAction_seenIds st e (classify e) ha
      have h2 : ingest (ingest st e) e = ingest st e := by
        apply ingest_of_contains
        rw [hsn, hid]
        simp [List.contains_cons]
      rw [h2]
      exact ⟨rfl, rfl⟩

/-- Witness for C1 at a concrete event. -/
theorem ingest_idempotent_witness :
    (ingest (ingest AggState.start
        { event_id := some "w1", type := "response.text.done", text := some "ok" })
        { event_id := some "w1", type := "response.text.done", text := some "ok" }).transcript =
      (ingest AggState.start
        { event_id := some "w1", type := "response.text.done", text := some "ok" }).transcript ∧
    (ingest (ingest AggState.start
        { event_id := some "w1", type := "response.text.done", text := some "ok" })
        { event_id := some "w1", type := "response.text.done", text := some "ok" }).seenIds =
      (ingest AggState.start
        { event_id := some "w1", type := "response.text.done", text := some "ok" }).seenIds :=
  ingest_idempotent AggState.start
    { event_id := some "w1", type := "response.text.done", text := some "ok" } "w1" rfl

/-- Claim C8: a single ingest either leaves the transcript unchanged, appends
exactly one entry, or rewrites the last entry in place; and every entry other
than the last is unchanged. -/
theorem ingest_frame (st : AggState) (e : RawEvent) :
    ((ingest st e).transcript = st.transcript ∨
      (∃ x, (ingest st e).transcript = st.transcript ++ [x]) ∨
      (st.transcript ≠ [] ∧
        ∃ x, (ingest st e).transcript = st.transcript.dropLast ++ [x])) ∧
    (∀ i : Nat, i + 1 < st.transcript.length →
      (ingest st e).transcript[i]? = st.transcript[i]?) := by
  have hD : (ingest st e).transcript = st.transcript ∨
      (∃ x, (ingest st e).transcript = st.transcript ++ [x]) ∨
      (st.transcript ≠ [] ∧
        ∃ x, (ingest st e).transcript = st.transcript.dropLast ++ [x]) := by
    by_cases hc : st.seenIds.contains e.event_id = true
    · rw [ingest_of_contains hc]; exact Or.inl rfl
    · have hc' : st.seenIds.contains e.event_id = false := by
        exact Bool.not_eq_true _ ▸ Bool.of_not_eq_true hc
      rw [ingest_of_not_contains hc']
      show (applyAction st e (classify e)).transcript = _ ∨ _ ∨ _
      cases classify e with
      | skip => exact Or.inl rfl
      | appendUserFinal txt => exact Or.inr (Or.inl ⟨_, rfl⟩)
      | userDelta txt =>
        by_cases hg : lastIsPartialOf st.transcript "user" = true
        · obtain ⟨l, hl, -, -⟩ := lastIsPartialOf_iff.mp hg
          refine Or.inr (Or.inr ⟨getLast?_ne_nil hl,
            ⟨{ l with message := l.message ++ txt }, ?_⟩⟩)
          simp only [applyAction]
          rw [if_pos hg]
          exact mergeLast_of_getLast? _ hl
        · refine Or.inr (Or.inl ⟨mkEntry e st.clock "user" txt true, ?_⟩)
          simp only [applyAction]
          rw [if_neg hg]
      | userBufferComplete txt =>
        by_cases hg : lastIsPartialOf st.transcript "user" = true
        · obtain ⟨l, hl, -, -⟩ := lastIsPartialOf_iff.mp hg
          refine Or.inr (Or.inr ⟨getLast?_ne_nil hl,
            ⟨{ l with message := txt, isPartial := false }, ?_⟩⟩)
          simp only [applyAction]
          rw [if_pos hg]
          exact mergeLast_of_getLast? _ hl
        · refine Or.inr (Or.inl ⟨mkEntry e st.clock "user" txt false, ?_⟩)
          simp only [applyAction]
          rw [if_neg hg]
      | assistantDelta txt =>
        by_cases hg : lastIsPartialOf st.transcript "assistant" = true
        · obtain ⟨l, hl, -, -⟩ := lastIsPartialOf_iff.mp hg
          refine Or.inr (Or.inr ⟨getLast?_ne_nil hl,
            ⟨{ l with message := l.message ++ txt }, ?_⟩⟩)
          simp only [applyAction]
          rw [if_pos hg]
          exact mergeLast_of_getLast? _ hl
        · refine Or.inr (Or.inl ⟨mkEntry e st.clock "assistant" txt true, ?_⟩)
          simp only [applyAction]
          rw [if_neg hg]
      | assistantDone txt =>
        by_cases hg : lastIsPartialAny st.transcript = true
        · obtain ⟨l, hl, -⟩ := lastIsPartialAny_iff.mp hg
          refine Or.inr (Or.inr ⟨getLast?_ne_nil hl,
            ⟨{ l with message := txt, isPartial := false }, ?_⟩⟩)
          simp only [applyAction]
          rw [if_pos hg]
          exact mergeLast_of_getLast? _ hl
        · refine Or.inr (Or.inl ⟨mkEntry e st.clock "assistant" txt false, ?_⟩)
          simp only [applyAction]
          rw [if_neg hg]
  refine ⟨hD, ?_⟩
  intro i hi
  rcases hD with h | ⟨x, h⟩ | ⟨hne, x, h⟩
  · rw [h]
  · rw [h, List.getElem?_append, if_pos (by omega)]
  · rw [h, List.getElem?_append,
      if_pos (by rw [List.length_dropLast]; omega),
      List.dropLast_eq_take, List.getElem?_take_of_lt (by omega)]

/-- Claim C4: the end-to-end scenario — two assistant audio deltas, a typed
user message, then the assistant audio "done": the stale assistant partial is
neither finalized nor removed, the user entry is appended finalized, and the
"done" appends a new finalized assistant entry. -/
theorem end_to_end_scenario :
    ((ingestAll
      [{ event_id := some "e1", type := "response.audio_transcript.delta",
         delta := some "Hi" },
       { event_id := some "e2", type := "response.audio_transcript.delta",
         delta := some " there" },
       { event_id := some "e3", type := "conversation.item.create",
         item := some ({ type := some "message", role := some "user",
                         content := [({ type := some "input_text",
                                        text := some "Hello!" } : ContentPart)] }
           : Item) },
       { event_id := some "e4", type := "response.audio_transcript.done",
         transcript := some "Hi there, how can I help?" }]).transcript.map view) =
    [("assistant", "Hi there", true), ("user", "Hello!", false),
     ("assistant", "Hi there, how can I help?", false)] := by rfl

/-- Claim C7: two assistant audio deltas coalesce into a single partial entry
"Hello"; the subsequent audio "done" with transcript "Hello there" replaces
(does not append to) that entry's content and finalizes it. -/
theorem delta_coalescing_finalization :
    ((ingestAll
      [{ event_id := some "a1", type := "response.audio_transcript.delta",
         delta := some "Hel" },
       { event_id := some "a2", type := "response.audio_transcript.delta",
         delta := some "lo" }]).transcript.map view) =
      [("assistant", "Hello", true)] ∧
    ((ingestAll
      [{ event_id := some "a1", type := "response.audio_transcript.delta",
         delta := some "Hel" },
       { event_id := some "a2", type := "response.audio_transcript.delta",
         delta := some "lo" },
       { event_id := some "a3", type := "response.audio_transcript.done",
         transcript := some "Hello there" }]).transcript.map view) =
      [("assistant", "Hello there", false)] := ⟨rfl, rfl⟩

/-- Claim C3, evaluated at the failing input: processing one id-less delta
records `undefined` in the ledger, after which a second id-less delta is
skipped by the duplicate-id check — the state is returned untouched and the
fragment "lo" is lost instead of being merged into "Hello". -/
theorem idless_event_skipped_after_first :
    (ingest AggState.start
      { type := "response.audio_transcript.delta", delta := some "Hel" }).seenIds =
      [none] ∧
    ingest (ingest AggState.start
        { type := "response.audio_transcript.delta", delta := some "Hel" })
        { type := "response.audio_transcript.delta", delta := some "lo" } =
      ingest AggState.start
        { type := "response.audio_transcript.delta", delta := some "Hel" } ∧
    ((ingest (ingest AggState.start
        { type := "response.audio_transcript.delta", delta := some "Hel" })
        { type := "response.audio_transcript.delta", delta := some "lo" }).transcript.map
        view) = [("assistant", "Hel", true)] := ⟨rfl, rfl, rfl⟩

/-- Claim C2 counterexample: with a user partial entry last, a
`conversation.item.input_audio_transcription.completed` event with non-empty
transcript appends a second entry — the partial entry is left partial and its
message is not replaced, contradicting the claimed replace behaviour. -/
theorem userAudioComplete_counterexample :
    lastIsPartialAny (ingest AggState.start
      { event_id := some "d0",
        type := "conversation.item.input_audio_transcription.delta",
        delta := some "Hel" }).transcript = true ∧
    ((ingest (ingest AggState.start
        { event_id := some "d0",
          type := "conversation.item.input_audio_transcription.delta",
          delta := some "Hel" })
        { event_id := some "d1",
          type := "conversation.item.input_audio_transcription.completed",
          transcript := some "Hello" }).transcript.map view) =
      [("user", "Hel", true), ("user", "Hello", false)] := ⟨rfl, rfl⟩

/-- Claim C2 (amended): a `conversation.item.input_audio_transcription.completed`
event with non-empty transcript always appends a new finalized user entry and
never merges into a partial; an `input_audio_buffer.transcription.completed`
event replaces the last entry in place only when that entry is a *user*
partial (the guard tests the entry's type, it is not speaker-agnostic), and
otherwise appends a new finalized user entry. -/
theorem userAudioComplete_amended (st : AggState) (e : RawEvent) (txt : String)
    (hdedup : st.seenIds.contains e.event_id = false) :
    (e.type = "conversation.item.input_audio_transcription.completed" →
      truthyStr e.transcript = some txt →
      (ingest st e).transcript =
        st.transcript ++ [mkEntry e st.clock "user" txt false]) ∧
    (e.type = "input_audio_buffer.transcription.completed" →
      truthyStr e.transcript = some txt →
      (ingest st e).transcript =
        (if lastIsPartialOf st.transcript "user" = true then
          mergeLast st.transcript
            (fun l => { l with message := txt, isPartial := false })
        else st.transcript ++ [mkEntry e st.clock "user" txt false])) := by
  constructor
  · intro ht hx
    have hcls : classify e = Action.appendUserFinal txt := by
      simp [classify, ht, hx]
    rw [ingest_of_not_contains hdedup, hcls]
    rfl
  · intro ht hx
    have hcls : classify e = Action.userBufferComplete txt := by
      simp [classify, ht, hx]
    rw [ingest_of_not_contains hdedup, hcls]
    by_cases hg : lastIsPartialOf st.transcript "user" = true
    · rw [if_pos hg]
      show (applyAction st e (Action.userBufferComplete txt)).transcript = _
      simp only [applyAction]
      rw [if_pos hg]
    · rw [if_neg hg]
      show (applyAction st e (Action.userBufferComplete txt)).transcript = _
      simp only [applyAction]
      rw [if_neg hg]

/-- Witness for the amended C2 at a concrete event over the fresh state. -/
theorem userAudioComplete_amended_witness :
    (ingest AggState.start
      { event_id := some "c2w",
        type := "conversation.item.input_audio_transcription.completed",
        transcript := some "hey" }).transcript =
      AggState.start.transcript ++
        [mkEntry
          { event_id := some "c2w",
            type := "conversation.item.input_audio_transcription.completed",
            transcript := some "hey" }
          AggState.start.clock "user" "hey" false] :=
  (userAudioComplete_amended AggState.start
    { event_id := some "c2w",
      type := "conversation.item.input_audio_transcription.completed",
      transcript := some "hey" } "hey" rfl).1 rfl rfl

/-- Claim C5 counterexample: an ignored event carrying an id leaves the
transcript unchanged but does NOT record its id in the dedup ledger — the
ledger stays empty, contradicting the claimed "record id" behaviour. -/
theorem ignored_id_not_recorded_counterexample :
    (ingest AggState.start
      { event_id := some "e9", type := "input_audio_buffer.speech_started" }).transcript =
      [] ∧
    (ingest AggState.start
      { event_id := some "e9", type := "input_audio_buffer.speech_started" }).seenIds =
      [] := ⟨rfl, rfl⟩

/-- Claim C6 counterexample: a `response.audio_transcript.delta` event carrying
only a `text` field (no `delta`) contributes nothing — the transcript stays
empty, because that case reads `event.delta` alone. -/
theorem audioDelta_textOnly_counterexample :
    (ingest AggState.start
      { event_id := some "t1", type := "response.audio_transcript.delta",
        text := some "Hi" }).transcript = [] := rfl

/-- Claim C6 (amended): only the alias `response.output_audio_transcript.delta`
falls back from `delta` to `text`; the plain `response.audio_transcript.delta`
case reads `event.delta` alone, so an event of that type whose `delta` is
absent or empty is a no-op even when it carries `text`. -/
theorem assistantAudioDelta_amended (st : AggState) (e : RawEvent) (txt : String)
    (hdedup : st.seenIds.contains e.event_id = false) :
    (e.type = "response.output_audio_transcript.delta" →
      jsOr e.delta e.text = some txt →
      (ingest st e).transcript =
        (if lastIsPartialOf st.transcript "assistant" = true then
          mergeLast st.transcript
            (fun l => { l with message := l.message ++ txt })
        else st.transcript ++ [mkEntry e st.clock "assistant" txt true])) ∧
    (e.type = "response.audio_transcript.delta" → truthyStr e.delta = none →
      (ingest st e).transcript = st.transcript ∧
      (ingest st e).seenIds = st.seenIds) := by
  constructor
  · intro ht hx
    have hcls : classify e = Action.assistantDelta txt := by
      simp [classify, ht, hx]
    rw [ingest_of_not_contains hdedup, hcls]
    by_cases hg : lastIsPartialOf st.transcript "assistant" = true
    · rw [if_pos hg]
      show (applyAction st e (Action.assistantDelta txt)).transcript = _
      simp only [applyAction]
      rw [if_pos hg]
    · rw [if_neg hg]
      show (applyAction st e (Action.assistantDelta txt)).transcript = _
      simp only [applyAction]
      rw [if_neg hg]
  · intro ht hx
    have hcls : classify e = Action.skip := by
      simp [classify, ht, hx]
    rw [ingest_of_not_contains hdedup, hcls]
    exact ⟨rfl, rfl⟩

/-- Witness for the amended C6: a text-only event of the `output_` alias type
does contribute its text over the fresh state. -/
theorem assistantAudioDelta_amended_witness :
    (ingest AggState.start
      { event_id := some "c6w", type := "response.output_audio_transcript.delta",
        text := some "hi" }).transcript =
      (if lastIsPartialOf AggState.start.transcript "assistant" = true then
        mergeLast AggState.start.transcript
          (fun l => { l with message := l.message ++ "hi" })
      else AggState.start.transcript ++
        [mkEntry
          { event_id := some "c6w", type := "response.output_audio_transcript.delta",
            text := some "hi" }
          AggState.start.clock "assistant" "hi" true]) :=
  (assistantAudioDelta_amended AggState.start
    { event_id := some "c6w", type := "response.output_audio_transcript.delta",
      text := some "hi" } "hi" rfl).1 rfl rfl

/-- Claim C10: when the last transcript entry is a partial entry with speaker
"user", any of the four assistant "done" raw types carrying non-empty final
text finalizes that same entry in place: the message is replaced by the
assistant's final text, `isPartial` becomes false, and the `speaker` field
remains "user". -/
theorem assistantDone_finalizes_user_entry (st : AggState) (e : RawEvent)
    (l : TranscriptEntry) (txt : String)
    (hdedup : st.seenIds.contains e.event_id = false)
    (hlast : st.transcript.getLast? = some l)
    (hp : TranscriptEntry.isPartial l = true)
    (hsp : l.speaker = "user")
    (hk : (e.type = "response.audio_transcript.done" ∧
            truthyStr e.transcript = some txt) ∨
          (e.type = "response.output_audio_transcript.done" ∧
            jsOr e.transcript e.text = some txt) ∨
          (e.type = "response.text.done" ∧ truthyStr e.text = some txt) ∨
          (e.type = "response.output_text.done" ∧
            jsOr (jsOr e.text e.output_text) e.transcript = some txt)) :
    (ingest st e).transcript =
      st.transcript.dropLast ++ [{ l with message := txt, isPartial := false }] ∧
    ∀ x, (ingest st e).transcript.getLast? = some x →
      x.speaker = "user" ∧ x.message = txt ∧ TranscriptEntry.isPartial x = false := by
  have hcls : classify e = Action.assistantDone txt := by
    rcases hk with ⟨ht, hx⟩ | ⟨ht, hx⟩ | ⟨ht, hx⟩ | ⟨ht, hx⟩ <;> simp [classify, ht, hx]
  have hg : lastIsPartialAny st.transcript = true :=
    lastIsPartialAny_iff.mpr ⟨l, hlast, hp⟩
  have htr : (ingest st e).transcript =
      st.transcript.dropLast ++ [{ l with message := txt, isPartial := false }] := by
    rw [ingest_of_not_contains hdedup, hcls]
    show (applyAction st e (Action.assistantDone txt)).transcript = _
    simp only [applyAction]
    rw [if_pos hg]
    exact mergeLast_of_getLast? _ hlast
  refine ⟨htr, ?_⟩
  intro x hx
  rw [htr, List.getLast?_concat] at hx
  injection hx with hx
  subst hx
  exact ⟨hsp, rfl, rfl⟩

/-- Witness for C10: a user partial entry is finalized by a concrete
`response.text.done` event. -/
theorem assistantDone_finalizes_user_entry_witness :
    (ingest (ingest AggState.start
        { event_id := some "c10u",
          type := "conversation.item.input_audio_transcription.delta",
          delta := some "How" })
        { event_id := some "c10d", type := "response.text.done",
          text := some "All good." }).transcript =
      (ingest AggState.start
        { event_id := some "c10u",
          type := "conversation.item.input_audio_transcription.delta",
          delta := some "How" }).transcript.dropLast ++
        [{ ({ id := "c10u", speaker := "user", message := "How", timestamp := 0,
              type := "user", isPartial := true } : TranscriptEntry) with
            message := "All good.", isPartial := false }] ∧
    ∀ x, (ingest (ingest AggState.start
        { event_id := some "c10u",
          type := "conversation.item.input_audio_transcription.delta",
          delta := some "How" })
        { event_id := some "c10d", type := "response.text.done",
          text := some "All good." }).transcript.getLast? = some x →
      x.speaker = "user" ∧ x.message = "All good." ∧
      TranscriptEntry.isPartial x = false :=
  assistantDone_finalizes_user_entry
    (ingest AggState.start
      { event_id := some "c10u",
        type := "conversation.item.input_audio_transcription.delta",
        delta := some "How" })
    { event_id := some "c10d", type := "response.text.done",
      text := some "All good." }
    { id := "c10u", speaker := "user", message := "How", timestamp := 0,
      type := "user", isPartial := true }
    "All good." rfl rfl rfl rfl (Or.inr (Or.inr (Or.inl ⟨rfl, rfl⟩)))

/-- The pair property behind C9: two adjacent entries must not both be
partial with the same speaker. -/
def okPair (a b : TranscriptEntry) : Prop :=
  ¬(TranscriptEntry.isPartial a = true ∧ TranscriptEntry.isPartial b = true ∧
    a.speaker = b.speaker)

/-- The inductive invariant: the adjacency property, plus the structural fact
that every entry's `type` field equals its `speaker` (true of every entry the
source creates), which ties the merge guards (testing `type`) to the claim
(about `speaker`). -/
def Inv (t : List TranscriptEntry) : Prop :=
  List.Chain' okPair t ∧ ∀ x ∈ t, x.type = x.speaker

theorem dropLast_append_of_getLast? {t : List TranscriptEntry}
    {l : TranscriptEntry} (h : t.getLast? = some l) : t.dropLast ++ [l] = t :=
  List.dropLast_append_getLast? l (Option.mem_def.mpr h)

theorem mem_of_getLast? {t : List TranscriptEntry} {l : TranscriptEntry}
    (h : t.getLast? = some l) : l ∈ t := by
  rw [← dropLast_append_of_getLast? h]
  exact List.mem_append.mpr (Or.inr (by simp))

theorem Inv_append {t : List TranscriptEntry} {y : TranscriptEntry}
    (h : Inv t) (hy : y.type = y.speaker)
    (hok : ∀ x, t.getLast? = some x → okPair x y) : Inv (t ++ [y]) := by
  constructor
  · rw [List.chain'_append]
    refine ⟨h.1, List.chain'_singleton y, ?_⟩
    intro a ha b hb
    have hb' : y = b := by simpa using hb
    subst hb'
    exact hok a (Option.mem_def.mp ha)
  · intro x hx
    rcases List.mem_append.mp hx with hx | hx
    · exact h.2 x hx
    · have hxy : x = y := by simpa using hx
      subst hxy; exact hy

theorem Inv_replaceLast {t : List TranscriptEntry} {l y : TranscriptEntry}
    (h : Inv t) (hl : t.getLast? = some l) (hy : y.type = y.speaker)
    (htrans : ∀ a, okPair a l → okPair a y) : Inv (t.dropLast ++ [y]) := by
  have hdec := dropLast_append_of_getLast? hl
  constructor
  · have hch : List.Chain' okPair (t.dropLast ++ [l]) := by rw [hdec]; exact h.1
    rw [List.chain'_append] at hch ⊢
    refine ⟨hch.1, List.chain'_singleton y, ?_⟩
    intro a ha b hb
    have hb' : y = b := by simpa using hb
    subst hb'
    exact htrans a (hch.2.2 a ha l (by simp))
  · intro x hx
    rcases List.mem_append.mp hx with hx | hx
    · exact h.2 x (by rw [← hdec]; exact List.mem_append.mpr (Or.inl hx))
    · have hxy : x = y := by simpa using hx
      subst hxy; exact hy

theorem Inv_ingest {st : AggState} (e : RawEvent) (h : Inv st.transcript) :
    Inv (ingest st e).transcript := by
  by_cases hc : st.seenIds.contains e.event_id = true
  · rw [ingest_of_contains hc]; exact h
  · have hc' : st.seenIds.contains e.event_id = false := by
      exact Bool.not_eq_true _ ▸ Bool.of_not_eq_true hc
    rw [ingest_of_not_contains hc']
    show Inv (applyAction st e (classify e)).transcript
    cases classify e with
    | skip => exact h
    | appendUserFinal txt =>
      apply Inv_append h rfl
      intro x _ hbad
      exact absurd hbad.2.1 (by simp [mkEntry])
    | userDelta txt =>
      by_cases hg : lastIsPartialOf st.transcript "user" = true
      · obtain ⟨l, hl, hlt, hlp⟩ := lastIsPartialOf_iff.mp hg
        simp only [applyAction]
        rw [if_pos hg]
        show Inv (mergeLast st.transcript _)
        rw [mergeLast_of_getLast? _ hl]
        exact Inv_replaceLast h hl (h.2 l (mem_of_getLast? hl))
          (fun a hok => hok)
      · simp only [applyAction]
        rw [if_neg hg]
        apply Inv_append h rfl
        intro x hx hbad
        obtain ⟨hxp, -, hsp⟩ := hbad
        exact hg (lastIsPartialOf_iff.mpr
          ⟨x, hx, by rw [h.2 x (mem_of_getLast? hx), hsp]; rfl, hxp⟩)
    | userBufferComplete txt =>
      by_cases hg : lastIsPartialOf st.transcript "user" = true
      · obtain ⟨l, hl, hlt, hlp⟩ := lastIsPartialOf_iff.mp hg
        simp only [applyAction]
        rw [if_pos hg]
        show Inv (mergeLast st.transcript _)
        rw [mergeLast_of_getLast? _ hl]
        refine Inv_replaceLast h hl (h.2 l (mem_of_getLast? hl)) ?_
        intro a _ hbad
        exact absurd hbad.2.1 (by simp)
      · simp only [applyAction]
        rw [if_neg hg]
        apply Inv_append h rfl
        intro x _ hbad
        exact absurd hbad.2.1 (by simp [mkEntry])
    | assistantDelta txt =>
      by_cases hg : lastIsPartialOf st.transcript "assistant" = true
      · obtain ⟨l, hl, hlt, hlp⟩ := lastIsPartialOf_iff.mp hg
        simp only [applyAction]
        rw [if_pos hg]
        show Inv (mergeLast st.transcript _)
        rw [mergeLast_of_getLast? _ hl]
        exact Inv_replaceLast h hl (h.2 l (mem_of_getLast? hl))
          (fun a hok => hok)
      · simp only [applyAction]
        rw [if_neg hg]
        apply Inv_append h rfl
        intro x hx hbad
        obtain ⟨hxp, -, hsp⟩ := hbad
        exact hg (lastIsPartialOf_iff.mpr
          ⟨x, hx, by rw [h.2 x (mem_of_getLast? hx), hsp]; rfl, hxp⟩)
    | assistantDone txt =>
      by_cases hg : lastIsPartialAny st.transcript = true
      · obtain ⟨l, hl, hlp⟩ := lastIsPartialAny_iff.mp hg
        simp only [applyAction]
        rw [if_pos hg]
        show Inv (mergeLast st.transcript _)
        rw [mergeLast_of_getLast? _ hl]
        refine Inv_replaceLast h hl (h.2 l (mem_of_getLast? hl)) ?_
        intro a _ hbad
        exact absurd hbad.2.1 (by simp)
      · simp only [applyAction]
        rw [if_neg hg]
        apply Inv_append h rfl
        intro x _ hbad
        exact absurd hbad.2.1 (by simp [mkEntry])

/-- Claim C9: for every event sequence ingested from the empty transcript, no
two adjacent transcript entries are both partial with the same speaker — a
new partial entry is only created when the last entry is not a partial entry
of that speaker. -/
theorem no_adjacent_same_speaker_partials (es : List RawEvent) :
    List.Chain' okPair (ingestAll es).transcript := by
  have main : ∀ (l : List RawEvent) (st : AggState), Inv st.transcript →
      Inv ((l.foldl ingest st).transcript) := by
    intro l
    induction l with
    | nil => intro st h; exact h
    | cons e es ih => intro st h; exact ih _ (Inv_ingest e h)
  exact (main es AggState.start ⟨List.chain'_nil, by intro x hx; simp [AggState.start] at hx⟩).1

/-- The logical event kinds of the spec's normalization table (§4.1). -/
inductive SpecKind where
  | UserMessageComplete
  | UserAudioDelta
  | UserAudioComplete
  | UserAudioItemAdded
  | AssistantAudioDelta
  | AssistantAudioComplete
  | AssistantTextDelta
  | AssistantTextComplete
  | Ignored
  deriving Repr, DecidableEq

/-- The spec's UserMessageComplete row: `conversation.item.create` with
item.type=message, role=user, content[0].type=input_text, extracting
`content[0].text`; any failed condition is Ignored. -/
def specUserCreate (e : RawEvent) : SpecKind × Option String :=
  match e.item with
  | some it =>
    if it.type == some "message" && it.role == some "user" then
      match it.content.head? with
      | some c =>
        if c.type == some "input_text" then
          (.UserMessageComplete, truthyStr c.text)
        else (.Ignored, none)
      | none => (.Ignored, none)
    else (.Ignored, none)
  | none => (.Ignored, none)

/-- The spec's UserAudioItemAdded row: `conversation.item.added` with
item.type=message, role=user, content[0].type=input_audio, extracting
`content[0].transcript`. -/
def specUserItemAdded (e : RawEvent) : SpecKind × Option String :=
  match e.item with
  | some it =>
    if it.type == some "message" && it.role == some "user" then
      match it.content.head? with
      | some c =>
        if c.type == some "input_audio" then
          (.UserAudioItemAdded, truthyStr c.transcript)
        else (.Ignored, none)
      | none => (.Ignored, none)
    else (.Ignored, none)
  | none => (.Ignored, none)

/-- The spec's §4.1 event normalizer, written from the table: each raw type
(with its alias variants and guard conditions) maps to a logical kind and an
extracted payload. The table's fallback chains are read with the source's
truthiness (the spec itself treats empty and absent payloads alike), so an
extracted payload of `none` is exactly the spec's "empty/absent value". This
definition follows the spec's words and exists only to state properties
phrased in the spec's normalized vocabulary; `classify` remains the
embedding of the source. -/
def specNormalize (e : RawEvent) : SpecKind × Option String :=
  if e.type = "conversation.item.create" then specUserCreate e
  else if e.type = "conversation.item.input_audio_transcription.delta" ∨
      e.type = "input_audio_buffer.transcription.delta" then
    (.UserAudioDelta, jsOr e.delta e.text)
  else if e.type = "conversation.item.input_audio_transcription.completed" ∨
      e.type = "input_audio_buffer.transcription.completed" then
    (.UserAudioComplete, truthyStr e.transcript)
  else if e.type = "conversation.item.added" then specUserItemAdded e
  else if e.type = "response.audio_transcript.delta" ∨
      e.type = "response.output_audio_transcript.delta" then
    (.AssistantAudioDelta, jsOr e.delta e.text)
  else if e.type = "response.audio_transcript.done" ∨
      e.type = "response.output_audio_transcript.done" then
    (.AssistantAudioComplete, jsOr e.transcript e.text)
  else if e.type = "response.text.delta" ∨
      e.type = "response.output_text.delta" then
    (.AssistantTextDelta, jsOr e.delta e.text)
  else if e.type = "response.text.done" ∨
      e.type = "response.output_text.done" then
    (.AssistantTextComplete, jsOr (jsOr e.text e.output_text) e.transcript)
  else (.Ignored, none)

theorem jsOr_eq_none_iff {a b : Option String} :
    jsOr a b = none ↔ truthyStr a = none ∧ truthyStr b = none := by
  unfold jsOr
  cases h : truthyStr a with
  | none => simp
  | some s => simp [h]

theorem truthyStr_idem (a : Option String) :
    truthyStr (truthyStr a) = truthyStr a := by
  cases a with
  | none => rfl
  | some s =>
    by_cases hs : s = ""
    · simp [truthyStr, hs]
    · simp [truthyStr, hs]

theorem truthyStr_jsOr (a b : Option String) :
    truthyStr (jsOr a b) = jsOr a b := by
  unfold jsOr
  cases h : truthyStr a with
  | none => exact truthyStr_idem b
  | some s =>
    have h2 : truthyStr (truthyStr a) = truthyStr a := truthyStr_idem a
    rw [h] at h2
    exact h2

theorem userCreateText_none_of_spec (e : RawEvent)
    (h : (specUserCreate e).1 = SpecKind.Ignored ∨ (specUserCreate e).2 = none) :
    userCreateText e = none := by
  unfold specUserCreate at h
  unfold userCreateText
  cases hit : e.item with
  | none => rfl
  | some it =>
    rw [hit] at h
    simp only at h ⊢
    by_cases hmr : (it.type == some "message" && it.role == some "user") = true
    · rw [if_pos hmr] at h ⊢
      cases hc0 : it.content.head? with
      | none => rfl
      | some c =>
        rw [hc0] at h
        simp only at h ⊢
        by_cases hct : (c.type == some "input_text") = true
        · rw [if_pos hct] at h ⊢
          rcases h with h | h
          · exact absurd h (by simp)
          · exact h
        · rw [if_neg hct]
    · rw [if_neg hmr]

theorem userAddedTranscript_none_of_spec (e : RawEvent)
    (h : (specUserItemAdded e).1 = SpecKind.Ignored ∨
      (specUserItemAdded e).2 = none) :
    userAddedTranscript e = none := by
  unfold specUserItemAdded at h
  unfold userAddedTranscript
  cases hit : e.item with
  | none => rfl
  | some it =>
    rw [hit] at h
    simp only at h ⊢
    by_cases hmr : (it.type == some "message" && it.role == some "user") = true
    · rw [if_pos hmr] at h ⊢
      cases hc0 : it.content.head? with
      | none => rfl
      | some c =>
        rw [hc0] at h
        simp only at h ⊢
        by_cases hct : (c.type == some "input_audio") = true
        · rw [if_pos hct] at h ⊢
          rcases h with h | h
          · exact absurd h (by simp)
          · exact h
        · rw [if_neg hct]
    · rw [if_neg hmr]

/-- An event the spec normalizes to `Ignored`, or whose extracted payload is
empty/absent, triggers no action in the source's dispatch. -/
theorem classify_skip_of_spec (e : RawEvent)
    (h : (specNormalize e).1 = SpecKind.Ignored ∨ (specNormalize e).2 = none) :
    classify e = Action.skip := by
  by_cases h1 : e.type = "conversation.item.create"
  · have hx : specNormalize e = specUserCreate e := by simp [specNormalize, h1]
    rw [hx] at h
    simp [classify, h1, userCreateText_none_of_spec e h]
  by_cases h2 : e.type = "conversation.item.input_audio_transcription.delta"
  · have hx : specNormalize e = (SpecKind.UserAudioDelta, jsOr e.delta e.text) := by
      simp [specNormalize, h2]
    rw [hx] at h
    rcases h with h | h
    · exact absurd h (by simp)
    · replace h : jsOr e.delta e.text = none := h
      simp [classify, h2, h]
  by_cases h3 : e.type = "input_audio_buffer.speech_started"
  · simp [classify, h3]
  by_cases h4 : e.type = "input_audio_buffer.speech_stopped"
  · simp [classify, h4]
  by_cases h5 : e.type = "input_audio_buffer.committed"
  · simp [classify, h5]
  by_cases h6 : e.type = "input_audio_buffer.transcription.delta"
  · have hx : specNormalize e = (SpecKind.UserAudioDelta, jsOr e.delta e.text) := by
      simp [specNormalize, h6]
    rw [hx] at h
    rcases h with h | h
    · exact absurd h (by simp)
    · replace h : jsOr e.delta e.text = none := h
      simp [classify, h6, h]
  by_cases h7 : e.type = "conversation.item.input_audio_transcription.completed"
  · have hx : specNormalize e =
        (SpecKind.UserAudioComplete, truthyStr e.transcript) := by
      simp [specNormalize, h7]
    rw [hx] at h
    rcases h with h | h
    · exact absurd h (by simp)
    · replace h : truthyStr e.transcript = none := h
      simp [classify, h7, h]
  by_cases h8 : e.type = "conversation.item.added"
  · have hx : specNormalize e = specUserItemAdded e := by simp [specNormalize, h8]
    rw [hx] at h
    simp [classify, h8, userAddedTranscript_none_of_spec e h]
  by_cases h9 : e.type = "input_audio_buffer.transcription.completed"
  · have hx : specNormalize e =
        (SpecKind.UserAudioComplete, truthyStr e.transcript) := by
      simp [specNormalize, h9]
    rw [hx] at h
    rcases h with h | h
    · exact absurd h (by simp)
    · replace h : truthyStr e.transcript = none := h
      simp [classify, h9, h]
  by_cases h10 : e.type = "response.audio_transcript.delta"
  · have hx : specNormalize e =
        (SpecKind.AssistantAudioDelta, jsOr e.delta e.text) := by
      simp [specNormalize, h10]
    rw [hx] at h
    rcases h with h | h
    · exact absurd h (by simp)
    · replace h : jsOr e.delta e.text = none := h
      have hd := (jsOr_eq_none_iff.mp h).1
      simp [classify, h10, hd]
  by_cases h11 : e.type = "response.output_audio_transcript.delta"
  · have hx : specNormalize e =
        (SpecKind.AssistantAudioDelta, jsOr e.delta e.text) := by
      simp [specNormalize, h11]
    rw [hx] at h
    rcases h with h | h
    · exact absurd h (by simp)
    · replace h : jsOr e.delta e.text = none := h
      simp [classify, h11, h]
  by_cases h12 : e.type = "response.audio_transcript.done"
  · have hx : specNormalize e =
        (SpecKind.AssistantAudioComplete, jsOr e.transcript e.text) := by
      simp [specNormalize, h12]
    rw [hx] at h
    rcases h with h | h
    · exact absurd h (by simp)
    · replace h : jsOr e.transcript e.text = none := h
      have hd := (jsOr_eq_none_iff.mp h).1
      simp [classify, h12, hd]
  by_cases h13 : e.type = "response.output_audio_transcript.done"
  · have hx : specNormalize e =
        (SpecKind.AssistantAudioComplete, jsOr e.transcript e.text) := by
      simp [specNormalize, h13]
    rw [hx] at h
    rcases h with h | h
    · exact absurd h (by simp)
    · replace h : jsOr e.transcript e.text = none := h
      simp [classify, h13, h]
  by_cases h14 : e.type = "response.text.delta"
  · have hx : specNormalize e =
        (SpecKind.AssistantTextDelta, jsOr e.delta e.text) := by
      simp [specNormalize, h14]
    rw [hx] at h
    rcases h with h | h
    · exact absurd h (by simp)
    · replace h : jsOr e.delta e.text = none := h
      have hd := (jsOr_eq_none_iff.mp h).1
      simp [classify, h14, hd]
  by_cases h15 : e.type = "response.output_text.delta"
  · have hx : specNormalize e =
        (SpecKind.AssistantTextDelta, jsOr e.delta e.text) := by
      simp [specNormalize, h15]
    rw [hx] at h
    rcases h with h | h
    · exact absurd h (by simp)
    · replace h : jsOr e.delta e.text = none := h
      simp [classify, h15, h]
  by_cases h16 : e.type = "response.text.done"
  · have hx : specNormalize e = (SpecKind.AssistantTextComplete,
        jsOr (jsOr e.text e.output_text) e.transcript) := by
      simp [specNormalize, h16]
    rw [hx] at h
    rcases h with h | h
    · exact absurd h (by simp)
    · replace h : jsOr (jsOr e.text e.output_text) e.transcript = none := h
      have hd0 := (jsOr_eq_none_iff.mp h).1
      rw [truthyStr_jsOr] at hd0
      have hd := (jsOr_eq_none_iff.mp hd0).1
      simp [classify, h16, hd]
  by_cases h17 : e.type = "response.output_text.done"
  · have hx : specNormalize e = (SpecKind.AssistantTextComplete,
        jsOr (jsOr e.text e.output_text) e.transcript) := by
      simp [specNormalize, h17]
    rw [hx] at h
    rcases h with h | h
    · exact absurd h (by simp)
    · replace h : jsOr (jsOr e.text e.output_text) e.transcript = none := h
      simp [classify, h17, h]
  simp [classify, h1, h2, h3, h4, h5, h6, h7, h8, h9, h10, h11, h12, h13, h14,
    h15, h16, h17]

/-- Claim C5 (amended): an event the normalizer maps to Ignored — including
unrecognized types — or whose payload extraction yields an empty/absent
value, leaves the transcript unchanged and also leaves the dedup ledger
unchanged: its id is NOT recorded (re-ingesting it is a no-op anyway,
because processing it has no effect). -/
theorem ignored_or_empty_noop (st : AggState) (e : RawEvent)
    (h : (specNormalize e).1 = SpecKind.Ignored ∨ (specNormalize e).2 = none) :
    (ingest st e).transcript = st.transcript ∧
    (ingest st e).seenIds = st.seenIds := by
  by_cases hc : st.seenIds.contains e.event_id = true
  · rw [ingest_of_contains hc]; exact ⟨rfl, rfl⟩
  · have hc' : st.seenIds.contains e.event_id = false := by
      exact Bool.not_eq_true _ ▸ Bool.of_not_eq_true hc
    rw [ingest_of_not_contains hc', classify_skip_of_spec e h]
    exact ⟨rfl, rfl⟩

/-- Witness for the amended C5: a concrete `speech_started` event with an id
over a non-trivial state. -/
theorem ignored_or_empty_noop_witness :
    (ingest AggState.start
      { event_id := some "e9", type := "input_audio_buffer.speech_started" }).transcript =
      AggState.start.transcript ∧
    (ingest AggState.start
      { event_id := some "e9", type := "input_audio_buffer.speech_started" }).seenIds =
      AggState.start.seenIds :=
  ignored_or_empty_noop AggState.start
    { event_id := some "e9", type := "input_audio_buffer.speech_started" }
    (Or.inl rfl)

end TM
